import Mathlib

/-!
Verification of the agent loop and output parser of the
pdf-table-extractor notebook (src/master.ipynb, cells 12 and 14).

Strings are modelled as `List Char`.  The Python source being embedded:

* `FINAL_ANSWER_TOKEN`, `OBSERVATION_TOKEN`, `THOUGHT_TOKEN` (cell 14)
* `Agent._get_tool_and_input` (cell 12): final-answer branch via
  `generated.split(FINAL_ANSWER_TOKEN)[-1].strip()`, else the regex
  `Action: [\[]?(.*?)[\]]?[\n]*Action Input:[\s]*(.*)` under `re.DOTALL`
  with `re.search`, else `raise ValueError(...)` carrying the full text.
* `Agent.run` (cell 12): the bounded while loop.
-/

/-- Source constant `FINAL_ANSWER_TOKEN = "Final Answer:"` (cell 14). -/
def faTok : List Char :=
  ['F', 'i', 'n', 'a', 'l', ' ', 'A', 'n', 's', 'w', 'e', 'r', ':']

/-- The literal `"Action: "` that opens the regex in `_get_tool_and_input`. -/
def actTok : List Char :=
  ['A', 'c', 't', 'i', 'o', 'n', ':', ' ']

/-- The literal `"Action Input:"` inside the regex in `_get_tool_and_input`. -/
def aiTok : List Char :=
  ['A', 'c', 't', 'i', 'o', 'n', ' ', 'I', 'n', 'p', 'u', 't', ':']

/-- Source constant `OBSERVATION_TOKEN = "Observation:"` (cell 14). -/
def obsTok : List Char :=
  ['O', 'b', 's', 'e', 'r', 'v', 'a', 't', 'i', 'o', 'n', ':']

/-- Source constant `THOUGHT_TOKEN = "Thought:"` (cell 14). -/
def thoughtTok : List Char :=
  ['T', 'h', 'o', 'u', 'g', 'h', 't', ':']

/-- The literal string `'Final Answer'` used as the sentinel tool name in
`_get_tool_and_input` and compared against in `run`. -/
def finalAnswerName : List Char :=
  ['F', 'i', 'n', 'a', 'l', ' ', 'A', 'n', 's', 'w', 'e', 'r']

theorem faTok_spec : faTok = ("Final Answer:").toList := by decide

theorem actTok_spec : actTok = ("Action: ").toList := by decide

theorem aiTok_spec : aiTok = ("Action Input:").toList := by decide

theorem obsTok_spec : obsTok = ("Observation:").toList := by decide

theorem thoughtTok_spec : thoughtTok = ("Thought:").toList := by decide

theorem finalAnswerName_spec : finalAnswerName = ("Final Answer").toList := by
  decide

/-- Python whitespace, both for `str.strip()` with no argument and for the
regex class `\s` (ASCII range): space, tab, newline, carriage return,
vertical tab, form feed. -/
def isPySpace (c : Char) : Bool :=
  c == ' ' || c == '\t' || c == '\n' || c == '\r' || c == '\x0b' || c == '\x0c'

/-- Python `str.strip(chars)`: remove every leading and trailing character
satisfying `p`. -/
def pyStripBy (p : Char → Bool) (s : List Char) : List Char :=
  ((s.dropWhile p).reverse.dropWhile p).reverse

/-- Python `str.strip()` with no argument (whitespace both ends). -/
def pyStrip (s : List Char) : List Char :=
  pyStripBy isPySpace s

def isQuoteChar (c : Char) : Bool := c == '"'

def isSpaceChar (c : Char) : Bool := c == ' '

def isNewlineChar (c : Char) : Bool := c == '\n'

/-- Match the literal `tok` at the front of `s`; on success return the rest.
This is the primitive for the literal parts of the regex. -/
def stripTok : List Char → List Char → Option (List Char)
  | [], s => some s
  | _ :: _, [] => none
  | a :: tok, b :: s => if a = b then stripTok tok s else none

/-- Python `tok in s` (substring containment). -/
def containsTok (tok : List Char) : List Char → Bool
  | [] => tok.isEmpty
  | c :: rest => tok.isPrefixOf (c :: rest) || containsTok tok rest

/-- The tail of `s` after the last occurrence of `FINAL_ANSWER_TOKEN`,
scanning left to right with `last` holding the best answer so far.
`generated.split(FINAL_ANSWER_TOKEN)[-1]` in the source equals this scan:
`str.split` consumes non-overlapping occurrences left to right, and
`"Final Answer:"` has no nontrivial border, so occurrences cannot overlap
and the split's last element is the tail after the rightmost occurrence. -/
def tailAux (last : Option (List Char)) : List Char → Option (List Char)
  | [] => last
  | c :: rest =>
    if faTok.isPrefixOf (c :: rest) then
      tailAux (some ((c :: rest).drop faTok.length)) rest
    else
      tailAux last rest

/-- Result of `generated.split(FINAL_ANSWER_TOKEN)[-1]` when the token
occurs (`none` when it does not). -/
def tailAfterFA (s : List Char) : Option (List Char) :=
  tailAux none s

/-- The regex fragment `[\]]?[\n]*Action Input:` applied at `u`; on success
returns the text after the literal `Action Input:`.  The greedy `[\]]?` is
exact here: if `u` starts with `]` and consuming it fails, the no-consume
fallback also fails, because `Action Input:` starts with `A`, not `]`. -/
def afterG1 : List Char → Option (List Char)
  | [] => stripTok aiTok []
  | c :: u =>
    stripTok aiTok ((if c = ']' then u else c :: u).dropWhile isNewlineChar)

/-- The lazy group `(.*?)` of the regex: try ever longer first groups
(accumulated reversed in `acc`) until `[\]]?[\n]*Action Input:` matches at
the remainder.  Returns (group 1, text after `Action Input:`). -/
def findG1 : List Char → List Char → Option (List Char × List Char)
  | acc, [] =>
    match afterG1 [] with
    | some r => some (acc.reverse, r)
    | none => none
  | acc, c :: u =>
    match afterG1 (c :: u) with
    | some r => some (acc.reverse, r)
    | none => findG1 (c :: acc) u

/-- The regex fragment `[\[]?(.*?)[\]]?[\n]*Action Input:` applied right
after `Action: `.  The greedy `[\[]?` is exact: if `t` starts with `[` and
the bracket-consuming branch fails, the fallback fails too (its one extra
candidate puts `[` where `Action Input:` would have to start). -/
def afterActTok : List Char → Option (List Char × List Char)
  | [] => findG1 [] []
  | c :: t => if c = '[' then findG1 [] t else findG1 [] (c :: t)

/-- Model of `re.search` of the full pattern: try each start position left
to right; at each position require the literal `Action: ` and then the rest
of the pattern. -/
def searchAction : List Char → Option (List Char × List Char)
  | [] => none
  | c :: rest =>
    match stripTok actTok (c :: rest) with
    | some t =>
      match afterActTok t with
      | some pr => some pr
      | none => searchAction rest
    | none => searchAction rest

/-- Group 2 post-processing in `_get_tool_and_input`: the regex `[\s]*`
before the greedy `(.*)` eats the maximal whitespace run, then the source
applies `.strip(' ').strip('"')` to the group. -/
def toolInputTrim (rest : List Char) : List Char :=
  pyStripBy isQuoteChar (pyStripBy isSpaceChar (rest.dropWhile isPySpace))

/-- Embedding of `Agent._get_tool_and_input` (cell 12).  The error payload
is the full offending text (the `ValueError` message embeds `generated`). -/
def getToolAndInput (generated : List Char) :
    Except (List Char) (List Char × List Char) :=
  if containsTok faTok generated then
    Except.ok (finalAnswerName, pyStrip ((tailAfterFA generated).getD generated))
  else
    match searchAction generated with
    | some (g1, rest) => Except.ok (pyStrip g1, toolInputTrim rest)
    | none => Except.error generated

deriving instance DecidableEq for Except

/-- The spec's action grammar, stated declaratively: an `Action: ` label
followed, possibly across newlines and arbitrary text, by an
`Action Input:` label and the remaining text. -/
def matchesActionGrammar (s : List Char) : Prop :=
  ∃ x u v, s = x ++ actTok ++ u ++ aiTok ++ v

/-- A LangChain `Tool` as the loop sees it: a name, a description and a
string-to-string callable (`tool.run`). -/
structure Tool where
  name : List Char
  description : List Char
  run : List Char → List Char

/-- The `Agent` pydantic model of cell 12.  The completion client is
abstracted to the function the loop observes: prompt and stop patterns in,
first generation text out (`self.llm.generate([prompt], stop=...)`,
then `generations[0][0].text`). -/
structure Agent where
  llm : List Char → List (List Char) → List Char
  prompt : List Char
  tools : List Tool
  maxLoops : Nat := 20
  stopPattern : List (List Char)

/-- The exceptions `run` can raise: the parser's `ValueError` carrying the
offending text, and the `KeyError` from `name_to_tool_map[tool]` carrying
the unknown tool name. -/
inductive RunError where
  | parseError : List Char → RunError
  | unknownToolError : List Char → RunError
deriving DecidableEq

/-- The dict comprehension `{tool.name: tool for tool in self.tools}`: a
later tool with the same name overwrites an earlier one. -/
def nameToToolMap (tools : List Tool) (name : List Char) : Option Tool :=
  tools.foldl (fun acc t => if t.name = name then some t else acc) none

/-- Everything observable about one `run` call: the returned value or raised
exception (`Except.ok none` is Python falling off the loop returning
`None`), the number of completion-client dispatches, the number of tool
invocations, the final `previous_responses` transcript, and the prompts
dispatched in order.  The counts and prompt trace are ghost observations of
the same control flow. -/
structure RunResult where
  result : Except RunError (Option (List Char))
  llmCalls : Nat
  toolCalls : Nat
  transcript : List (List Char)
  prompts : List (List Char)
deriving DecidableEq

def nlChar : List Char := ['\n']

def spChar : List Char := [' ']

/-- The body of `Agent.run` (cell 12), by recursion on the remaining budget
`max_loops - num_loops`.  Each iteration: render the module-global `prompt`
template over `'\n'.join(previous_responses)` (note: the source formats the
global `prompt`, not `self.prompt`), call the completion client, parse,
return on the `'Final Answer'` sentinel, look the tool up (a miss raises),
run the tool, append the observation record, and continue. -/
def runLoop (gp : List Char → List Char)
    (llm : List Char → List (List Char) → List Char)
    (tools : List Tool) (stop : List (List Char)) :
    List (List Char) → Nat → RunResult
  | prev, 0 => ⟨Except.ok none, 0, 0, prev, []⟩
  | prev, n + 1 =>
    let curr := gp (List.intercalate nlChar prev)
    let output := llm curr stop
    match getToolAndInput output with
    | Except.error e => ⟨Except.error (RunError.parseError e), 1, 0, prev, [curr]⟩
    | Except.ok (tool, toolInput) =>
      if tool = finalAnswerName then
        ⟨Except.ok (some toolInput), 1, 0, prev, [curr]⟩
      else
        match nameToToolMap tools tool with
        | none => ⟨Except.error (RunError.unknownToolError tool), 1, 0, prev, [curr]⟩
        | some t =>
          let record :=
            output ++ nlChar ++ obsTok ++ spChar ++ t.run toolInput ++ nlChar ++ thoughtTok
          let rest := runLoop gp llm tools stop (prev ++ [record]) n
          ⟨rest.result, rest.llmCalls + 1, rest.toolCalls + 1, rest.transcript,
            curr :: rest.prompts⟩

/-- Embedding of `Agent.run(question)`.  `gp` is the module-global `prompt` template as a
function of the `previous_responses` blob (cell 16 builds it by
`PROMPT_TEMPLATE.format(...)` leaving only that placeholder).  The
`question` argument is, as in the source, not used by the body: the global
template already has the question substituted. -/
def Agent.run (gp : List Char → List Char) (ag : Agent)
    (_question : List Char) : RunResult :=
  runLoop gp ag.llm ag.tools ag.stopPattern [] ag.maxLoops

/-! ### Lemmas about the literal matcher and substring containment -/

theorem stripTok_eq_some :
    ∀ {tok s r : List Char}, stripTok tok s = some r ↔ s = tok ++ r := by
  intro tok
  induction tok with
  | nil =>
    intro s r
    simp [stripTok]
  | cons a tok2 ih =>
    intro s r
    cases s with
    | nil =>
      simp [stripTok]
    | cons b s2 =>
      simp only [stripTok, List.cons_append, List.cons.injEq]
      by_cases hab : a = b
      · rw [if_pos hab, ih]
        subst hab
        simp
      · rw [if_neg hab]
        constructor
        · intro h
          exact Option.noConfusion h
        · rintro ⟨h1, h2⟩
          exact absurd h1.symm hab

theorem stripTok_append (tok r : List Char) : stripTok tok (tok ++ r) = some r :=
  stripTok_eq_some.mpr rfl

theorem containsTok_iff {tok s : List Char} :
    containsTok tok s = true ↔ ∃ x y, s = x ++ tok ++ y := by
  induction s with
  | nil =>
    simp only [containsTok, List.isEmpty_iff]
    constructor
    · intro h
      exact ⟨[], [], by simp [h]⟩
    · rintro ⟨x, y, hxy⟩
      have hx := hxy.symm
      simp only [List.append_assoc, List.append_eq_nil] at hx
      exact hx.2.1
  | cons c rest ih =>
    simp only [containsTok, Bool.or_eq_true]
    constructor
    · rintro (hp | hc)
      · obtain ⟨t, ht⟩ := List.isPrefixOf_iff_prefix.mp hp
        exact ⟨[], t, by simp [ht]⟩
      · obtain ⟨x, y, hxy⟩ := ih.mp hc
        exact ⟨c :: x, y, by simp [hxy]⟩
    · rintro ⟨x, y, hxy⟩
      cases x with
      | nil =>
        left
        refine List.isPrefixOf_iff_prefix.mpr ⟨y, ?_⟩
        simpa using hxy.symm
      | cons a x2 =>
        right
        refine ih.mpr ⟨x2, y, ?_⟩
        have h2 := hxy
        simp only [List.cons_append] at h2
        exact (List.cons.inj h2).2

theorem containsTok_drop {tok s : List Char} {n : Nat}
    (h : containsTok tok (s.drop n) = true) : containsTok tok s = true := by
  obtain ⟨x, y, hxy⟩ := containsTok_iff.mp h
  refine containsTok_iff.mpr ⟨s.take n ++ x, y, ?_⟩
  conv_lhs => rw [← List.take_append_drop n s]
  rw [hxy]
  simp [List.append_assoc]

theorem containsTok_cons {tok s : List Char} {c : Char}
    (h : containsTok tok s = true) : containsTok tok (c :: s) = true := by
  simp [containsTok, h]

/-! ### The last-occurrence scan -/

theorem tailAux_some_isSome :
    ∀ (s r : List Char), (tailAux (some r) s).isSome = true := by
  intro s
  induction s with
  | nil => intro r; rfl
  | cons c rest ih =>
    intro r
    simp only [tailAux]
    by_cases hp : faTok.isPrefixOf (c :: rest) = true
    · rw [if_pos hp]; exact ih _
    · rw [if_neg hp]; exact ih _

theorem tailAux_sound :
    ∀ (s : List Char) (last : Option (List Char)) (u : List Char),
      tailAux last s = some u →
      (∃ pre, s = pre ++ faTok ++ u ∧ containsTok faTok u = false) ∨
        (last = some u ∧ containsTok faTok s = false) := by
  intro s
  induction s with
  | nil =>
    intro last u h
    right
    exact ⟨h, by decide⟩
  | cons c rest ih =>
    intro last u h
    simp only [tailAux] at h
    by_cases hp : faTok.isPrefixOf (c :: rest) = true
    · rw [if_pos hp] at h
      rcases ih _ _ h with ⟨pre, hpre, hcu⟩ | ⟨hlast, hcr⟩
      · left
        exact ⟨c :: pre, by simp [hpre], hcu⟩
      · left
        obtain ⟨t, ht⟩ := List.isPrefixOf_iff_prefix.mp hp
        have hu : u = (c :: rest).drop faTok.length := (Option.some.inj hlast).symm
        refine ⟨[], ?_, ?_⟩
        · rw [hu, ← ht, List.drop_left]
          simp
        · have h13 : (c :: rest).drop faTok.length = rest.drop 12 := by
            have hlen : faTok.length = 13 := by decide
            rw [hlen, List.drop_succ_cons]
          rw [hu, h13]
          cases h12 : containsTok faTok (rest.drop 12) with
          | false => rfl
          | true =>
            rw [containsTok_drop h12] at hcr
            exact Bool.noConfusion hcr
    · rw [if_neg hp] at h
      rcases ih _ _ h with ⟨pre, hpre, hcu⟩ | ⟨hlast, hcr⟩
      · left
        exact ⟨c :: pre, by simp [hpre], hcu⟩
      · right
        refine ⟨hlast, ?_⟩
        have hpf : faTok.isPrefixOf (c :: rest) = false := Bool.eq_false_iff.mpr hp
        simp [containsTok, hpf, hcr]

theorem tailAux_isSome :
    ∀ (s : List Char) (last : Option (List Char)),
      containsTok faTok s = true → (tailAux last s).isSome = true := by
  intro s
  induction s with
  | nil =>
    intro last h
    exact absurd h (by decide)
  | cons c rest ih =>
    intro last h
    simp only [tailAux]
    by_cases hp : faTok.isPrefixOf (c :: rest) = true
    · rw [if_pos hp]
      exact tailAux_some_isSome _ _
    · rw [if_neg hp]
      apply ih
      have hpf : faTok.isPrefixOf (c :: rest) = false := Bool.eq_false_iff.mpr hp
      simpa [containsTok, hpf] using h

/-! ### The regex matcher, soundness and completeness -/

theorem afterG1_nil : afterG1 [] = none := by decide

theorem afterG1_aiTok (v : List Char) : afterG1 (aiTok ++ v) = some v := by
  have h1 : aiTok ++ v =
      'A' :: (['c', 't', 'i', 'o', 'n', ' ', 'I', 'n', 'p', 'u', 't', ':'] ++ v) := rfl
  rw [h1]
  simp only [afterG1]
  rw [if_neg (by decide : ¬ ('A' = ']'))]
  rw [List.dropWhile_cons, if_neg (by decide : ¬ (isNewlineChar 'A' = true))]
  rw [← h1]
  exact stripTok_append _ _

theorem afterG1_sound {u r : List Char} (h : afterG1 u = some r) :
    ∃ a, u = a ++ aiTok ++ r := by
  cases u with
  | nil =>
    rw [afterG1_nil] at h
    exact Option.noConfusion h
  | cons c u2 =>
    simp only [afterG1] at h
    by_cases hc : c = ']'
    · rw [if_pos hc] at h
      have hd := stripTok_eq_some.mp h
      have hsplit : u2 = u2.takeWhile isNewlineChar ++ (aiTok ++ r) := by
        rw [← hd, List.takeWhile_append_dropWhile]
      exact ⟨c :: u2.takeWhile isNewlineChar, by
        rw [List.append_assoc]
        simp [← hsplit]⟩
    · rw [if_neg hc] at h
      have hd := stripTok_eq_some.mp h
      have hsplit : c :: u2 = (c :: u2).takeWhile isNewlineChar ++ (aiTok ++ r) := by
        rw [← hd, List.takeWhile_append_dropWhile]
      exact ⟨(c :: u2).takeWhile isNewlineChar, by
        rw [List.append_assoc]
        exact hsplit⟩

theorem findG1_sound :
    ∀ (u acc g r : List Char), findG1 acc u = some (g, r) →
      ∃ p q, u = p ++ q ∧ g = acc.reverse ++ p ∧ afterG1 q = some r := by
  intro u
  induction u with
  | nil =>
    intro acc g r h
    simp only [findG1, afterG1_nil] at h
    exact Option.noConfusion h
  | cons c u2 ih =>
    intro acc g r h
    simp only [findG1] at h
    cases ha : afterG1 (c :: u2) with
    | some r2 =>
      rw [ha] at h
      simp only [Option.some.injEq, Prod.mk.injEq] at h
      obtain ⟨hg, hr⟩ := h
      refine ⟨[], c :: u2, by simp, by simp [hg], ?_⟩
      rw [ha, hr]
    | none =>
      rw [ha] at h
      obtain ⟨p, q, hu, hg, hq⟩ := ih (c :: acc) g r h
      refine ⟨c :: p, q, by simp [hu], ?_, hq⟩
      simp only [List.reverse_cons] at hg
      simpa [List.append_assoc] using hg

theorem findG1_complete :
    ∀ (p acc q r : List Char), afterG1 q = some r →
      (findG1 acc (p ++ q)).isSome = true := by
  intro p
  induction p with
  | nil =>
    intro acc q r h
    cases q with
    | nil => rw [afterG1_nil] at h; cases h
    | cons c q2 =>
      simp only [List.nil_append, findG1, h]
      rfl
  | cons c p2 ih =>
    intro acc q r h
    simp only [List.cons_append, findG1]
    cases ha : afterG1 (c :: (p2 ++ q)) with
    | some r2 => rfl
    | none => exact ih (c :: acc) q r h

theorem afterActTok_sound {t : List Char} {pr : List Char × List Char}
    (h : afterActTok t = some pr) : ∃ w v, t = w ++ aiTok ++ v := by
  cases t with
  | nil =>
    have : afterActTok [] = none := by decide
    rw [this] at h
    exact Option.noConfusion h
  | cons c t2 =>
    simp only [afterActTok] at h
    obtain ⟨g, r⟩ := pr
    by_cases hc : c = '['
    · rw [if_pos hc] at h
      obtain ⟨p, q, ht, hg, hq⟩ := findG1_sound _ _ _ _ h
      obtain ⟨a, ha⟩ := afterG1_sound hq
      refine ⟨c :: (p ++ a), r, ?_⟩
      simp only [List.cons_append, List.append_assoc]
      rw [ht, ha]
      simp [List.append_assoc]
    · rw [if_neg hc] at h
      obtain ⟨p, q, ht, hg, hq⟩ := findG1_sound _ _ _ _ h
      obtain ⟨a, ha⟩ := afterG1_sound hq
      refine ⟨p ++ a, r, ?_⟩
      simp only [List.append_assoc]
      rw [ht, ha]
      simp [List.append_assoc]

theorem afterActTok_cons (c : Char) (t : List Char) :
    afterActTok (c :: t) = if c = '[' then findG1 [] t else findG1 [] (c :: t) := rfl

theorem afterActTok_complete (u v : List Char) :
    (afterActTok (u ++ aiTok ++ v)).isSome = true := by
  cases u with
  | nil =>
    have hshape : ([] : List Char) ++ aiTok ++ v =
        'A' :: (['c', 't', 'i', 'o', 'n', ' ', 'I', 'n', 'p', 'u', 't', ':'] ++ v) := rfl
    have h2 : ([] : List Char) ++ aiTok ++ v = aiTok ++ v := by simp
    rw [hshape, afterActTok_cons, if_neg (by decide : ¬ ('A' = '[')), ← hshape, h2]
    exact findG1_complete [] [] (aiTok ++ v) v (afterG1_aiTok v)
  | cons c u2 =>
    have hshape : (c :: u2) ++ aiTok ++ v = c :: (u2 ++ (aiTok ++ v)) := by
      simp
    rw [hshape, afterActTok_cons]
    by_cases hc : c = '['
    · rw [if_pos hc]
      exact findG1_complete u2 [] (aiTok ++ v) v (afterG1_aiTok v)
    · rw [if_neg hc]
      have h2 := findG1_complete (c :: u2) [] (aiTok ++ v) v (afterG1_aiTok v)
      simpa using h2

theorem searchAction_sound :
    ∀ {s : List Char} {pr : List Char × List Char}, searchAction s = some pr →
      matchesActionGrammar s := by
  intro s
  induction s with
  | nil =>
    intro pr h
    exact Option.noConfusion h
  | cons c rest ih =>
    intro pr h
    cases hst : stripTok actTok (c :: rest) with
    | none =>
      simp only [searchAction, hst] at h
      obtain ⟨x, u, v, hx⟩ := ih h
      exact ⟨c :: x, u, v, by simp [hx]⟩
    | some t =>
      cases hat : afterActTok t with
      | none =>
        simp only [searchAction, hst, hat] at h
        obtain ⟨x, u, v, hx⟩ := ih h
        exact ⟨c :: x, u, v, by simp [hx]⟩
      | some pr2 =>
        have hs : c :: rest = actTok ++ t := stripTok_eq_some.mp hst
        obtain ⟨w, v, hw⟩ := afterActTok_sound hat
        refine ⟨[], w, v, ?_⟩
        rw [List.nil_append, hs, hw]
        simp [List.append_assoc]

theorem searchAction_at0 {t : List Char} {pr : List Char × List Char}
    (h : afterActTok t = some pr) : searchAction (actTok ++ t) = some pr := by
  have e : searchAction (actTok ++ t) =
      match afterActTok t with
      | some pr2 => some pr2
      | none => searchAction (['c', 't', 'i', 'o', 'n', ':', ' '] ++ t) := rfl
  rw [e, h]

theorem searchAction_complete :
    ∀ {s : List Char}, matchesActionGrammar s → (searchAction s).isSome = true := by
  intro s h
  obtain ⟨x, u, v, rfl⟩ := h
  induction x with
  | nil =>
    have ha := afterActTok_complete u v
    cases hat : afterActTok (u ++ aiTok ++ v) with
    | none =>
      rw [hat] at ha
      exact Bool.noConfusion ha
    | some pr =>
      have h0 : searchAction (actTok ++ (u ++ aiTok ++ v)) = some pr :=
        searchAction_at0 hat
      have hshape : ([] : List Char) ++ actTok ++ u ++ aiTok ++ v =
          actTok ++ (u ++ aiTok ++ v) := by
        simp [List.append_assoc]
      rw [hshape, h0]
      rfl
  | cons c x2 ih =>
    have hshape : (c :: x2) ++ actTok ++ u ++ aiTok ++ v =
        c :: (x2 ++ actTok ++ u ++ aiTok ++ v) := by
      simp
    rw [hshape]
    cases hst : stripTok actTok (c :: (x2 ++ actTok ++ u ++ aiTok ++ v)) with
    | none =>
      simp only [searchAction, hst]
      exact ih
    | some t =>
      cases hat : afterActTok t with
      | none =>
        simp only [searchAction, hst, hat]
        exact ih
      | some pr =>
        simp only [searchAction, hst, hat]
        rfl

theorem searchAction_isSome_iff {s : List Char} :
    (searchAction s).isSome = true ↔ matchesActionGrammar s := by
  constructor
  · intro h
    cases hs : searchAction s with
    | none =>
      rw [hs] at h
      exact Bool.noConfusion h
    | some pr => exact searchAction_sound hs
  · exact searchAction_complete

/-! ### Where the lazy group lands on bracketed action lines -/

theorem containsTok_of_append {tok y : List Char} :
    containsTok tok (tok ++ y) = true :=
  containsTok_iff.mpr ⟨[], y, by simp⟩

theorem afterG1_none_inside {c : Char} {name2 rest2 : List Char}
    (hcb : c ≠ ']') (hcn : c ≠ '\n')
    (hcontain : containsTok aiTok (c :: name2) = false) :
    afterG1 (c :: (name2 ++ (']' :: rest2))) = none := by
  simp only [afterG1]
  rw [if_neg hcb]
  rw [List.dropWhile_cons, if_neg (by simp [isNewlineChar, hcn])]
  cases hsome : stripTok aiTok (c :: (name2 ++ (']' :: rest2))) with
  | none => rfl
  | some r2 =>
    exfalso
    have heq := stripTok_eq_some.mp hsome
    have heq2 : aiTok ++ r2 = (c :: name2) ++ (']' :: rest2) := by
      rw [← heq]
      simp
    rcases List.append_eq_append_iff.mp heq2 with ⟨a, ha1, ha2⟩ | ⟨c2, hc1, hc2⟩
    · have hct : containsTok aiTok (c :: name2) = true := by
        rw [ha1]
        exact containsTok_of_append
      rw [hct] at hcontain
      exact Bool.noConfusion hcontain
    · cases c2 with
      | nil =>
        have hct : containsTok aiTok (c :: name2) = true := by
          have : aiTok = c :: name2 := by simpa using hc1
          rw [← this]
          simpa using (@containsTok_of_append aiTok [])
        rw [hct] at hcontain
        exact Bool.noConfusion hcontain
      | cons d c2t =>
        have hd : d = ']' := ((List.cons.inj hc2).1).symm
        have hmem : (']' : Char) ∈ aiTok := by
          subst hd
          rw [hc1]
          simp
        exact absurd hmem (by decide)

theorem findG1_name :
    ∀ (name acc r2 : List Char),
      (∀ c, c ∈ name → c ≠ ']' ∧ c ≠ '\n') →
      containsTok aiTok name = false →
      findG1 acc (name ++ (']' :: '\n' :: (aiTok ++ r2))) =
        some (acc.reverse ++ name, r2) := by
  intro name
  induction name with
  | nil =>
    intro acc r2 h1 h2
    have ha : afterG1 (']' :: ('\n' :: (aiTok ++ r2))) = some r2 := by
      simp only [afterG1]
      rw [if_pos trivial]
      rw [List.dropWhile_cons, if_pos (by decide : isNewlineChar '\n' = true)]
      have hsh : aiTok ++ r2 =
          'A' :: (['c', 't', 'i', 'o', 'n', ' ', 'I', 'n', 'p', 'u', 't', ':'] ++ r2) := rfl
      rw [hsh, List.dropWhile_cons, if_neg (by decide : ¬ (isNewlineChar 'A' = true)),
        ← hsh]
      exact stripTok_append _ _
    simp only [List.nil_append, findG1, ha]
    simp
  | cons c name2 ih =>
    intro acc r2 h1 h2
    have hc := h1 c (List.mem_cons_self _ _)
    have hcontain2 : containsTok aiTok name2 = false := by
      cases hct : containsTok aiTok name2 with
      | false => rfl
      | true =>
        rw [containsTok_cons hct] at h2
        exact Bool.noConfusion h2
    have hnone : afterG1 (c :: (name2 ++ (']' :: ('\n' :: (aiTok ++ r2))))) = none :=
      afterG1_none_inside hc.1 hc.2 h2
    rw [show (c :: name2) ++ (']' :: '\n' :: (aiTok ++ r2)) =
        c :: (name2 ++ (']' :: ('\n' :: (aiTok ++ r2)))) from by simp]
    simp only [findG1, hnone]
    rw [ih (c :: acc) r2 (fun d hd => h1 d (List.mem_cons_of_mem _ hd)) hcontain2]
    simp

/-! ### Branch lemmas for the parser -/

theorem getToolAndInput_final {s : List Char}
    (h : containsTok faTok s = true) :
    getToolAndInput s =
      Except.ok (finalAnswerName, pyStrip ((tailAfterFA s).getD s)) := by
  unfold getToolAndInput
  rw [if_pos h]

theorem getToolAndInput_action {s g1 rest : List Char}
    (hFA : containsTok faTok s = false)
    (hs : searchAction s = some (g1, rest)) :
    getToolAndInput s = Except.ok (pyStrip g1, toolInputTrim rest) := by
  unfold getToolAndInput
  rw [if_neg (by simp [hFA]), hs]

theorem getToolAndInput_err {s : List Char}
    (hFA : containsTok faTok s = false)
    (hs : searchAction s = none) :
    getToolAndInput s = Except.error s := by
  unfold getToolAndInput
  rw [if_neg (by simp [hFA]), hs]

/-! ### One-step and inductive lemmas for the loop -/

theorem runLoop_parseErr (gp : List Char → List Char)
    (llm : List Char → List (List Char) → List Char)
    (tools : List Tool) (stop : List (List Char))
    (prev : List (List Char)) (n : Nat) (e : List Char)
    (h : getToolAndInput (llm (gp (List.intercalate nlChar prev)) stop) =
        Except.error e) :
    runLoop gp llm tools stop prev (n + 1) =
      ⟨Except.error (RunError.parseError e), 1, 0, prev,
        [gp (List.intercalate nlChar prev)]⟩ := by
  simp only [runLoop]
  rw [h]

theorem runLoop_final (gp : List Char → List Char)
    (llm : List Char → List (List Char) → List Char)
    (tools : List Tool) (stop : List (List Char))
    (prev : List (List Char)) (n : Nat) (tool toolInput : List Char)
    (h : getToolAndInput (llm (gp (List.intercalate nlChar prev)) stop) =
        Except.ok (tool, toolInput))
    (ht : tool = finalAnswerName) :
    runLoop gp llm tools stop prev (n + 1) =
      ⟨Except.ok (some toolInput), 1, 0, prev,
        [gp (List.intercalate nlChar prev)]⟩ := by
  simp only [runLoop]
  rw [h]
  simp [ht]

theorem runLoop_unknown (gp : List Char → List Char)
    (llm : List Char → List (List Char) → List Char)
    (tools : List Tool) (stop : List (List Char))
    (prev : List (List Char)) (n : Nat) (tool toolInput : List Char)
    (h : getToolAndInput (llm (gp (List.intercalate nlChar prev)) stop) =
        Except.ok (tool, toolInput))
    (ht : tool ≠ finalAnswerName)
    (hm : nameToToolMap tools tool = none) :
    runLoop gp llm tools stop prev (n + 1) =
      ⟨Except.error (RunError.unknownToolError tool), 1, 0, prev,
        [gp (List.intercalate nlChar prev)]⟩ := by
  simp only [runLoop]
  rw [h]
  simp only [if_neg ht]
  rw [hm]

theorem runLoop_toolStep (gp : List Char → List Char)
    (llm : List Char → List (List Char) → List Char)
    (tools : List Tool) (stop : List (List Char))
    (prev : List (List Char)) (n : Nat) (tool toolInput : List Char) (t : Tool)
    (h : getToolAndInput (llm (gp (List.intercalate nlChar prev)) stop) =
        Except.ok (tool, toolInput))
    (ht : tool ≠ finalAnswerName)
    (hm : nameToToolMap tools tool = some t) :
    runLoop gp llm tools stop prev (n + 1) =
      ⟨(runLoop gp llm tools stop
          (prev ++ [llm (gp (List.intercalate nlChar prev)) stop ++ nlChar ++
            obsTok ++ spChar ++ t.run toolInput ++ nlChar ++ thoughtTok]) n).result,
        (runLoop gp llm tools stop
          (prev ++ [llm (gp (List.intercalate nlChar prev)) stop ++ nlChar ++
            obsTok ++ spChar ++ t.run toolInput ++ nlChar ++ thoughtTok]) n).llmCalls + 1,
        (runLoop gp llm tools stop
          (prev ++ [llm (gp (List.intercalate nlChar prev)) stop ++ nlChar ++
            obsTok ++ spChar ++ t.run toolInput ++ nlChar ++ thoughtTok]) n).toolCalls + 1,
        (runLoop gp llm tools stop
          (prev ++ [llm (gp (List.intercalate nlChar prev)) stop ++ nlChar ++
            obsTok ++ spChar ++ t.run toolInput ++ nlChar ++ thoughtTok]) n).transcript,
        gp (List.intercalate nlChar prev) ::
          (runLoop gp llm tools stop
            (prev ++ [llm (gp (List.intercalate nlChar prev)) stop ++ nlChar ++
              obsTok ++ spChar ++ t.run toolInput ++ nlChar ++ thoughtTok]) n).prompts⟩ := by
  simp only [runLoop]
  rw [h]
  simp only [if_neg ht]
  rw [hm]

theorem runLoop_llmCalls_le (gp : List Char → List Char)
    (llm : List Char → List (List Char) → List Char)
    (tools : List Tool) (stop : List (List Char)) :
    ∀ (fuel : Nat) (prev : List (List Char)),
      (runLoop gp llm tools stop prev fuel).llmCalls ≤ fuel := by
  intro fuel
  induction fuel with
  | zero =>
    intro prev
    exact Nat.le_refl 0
  | succ n ih =>
    intro prev
    cases hout : getToolAndInput (llm (gp (List.intercalate nlChar prev)) stop) with
    | error e =>
      rw [runLoop_parseErr gp llm tools stop prev n e hout]
      exact Nat.succ_le_succ (Nat.zero_le n)
    | ok pr =>
      obtain ⟨tool, toolInput⟩ := pr
      by_cases ht : tool = finalAnswerName
      · rw [runLoop_final gp llm tools stop prev n tool toolInput hout ht]
        exact Nat.succ_le_succ (Nat.zero_le n)
      · cases hm : nameToToolMap tools tool with
        | none =>
          rw [runLoop_unknown gp llm tools stop prev n tool toolInput hout ht hm]
          exact Nat.succ_le_succ (Nat.zero_le n)
        | some t =>
          rw [runLoop_toolStep gp llm tools stop prev n tool toolInput t hout ht hm]
          exact Nat.succ_le_succ (ih _)

theorem runLoop_transcript_growth (gp : List Char → List Char)
    (llm : List Char → List (List Char) → List Char)
    (tools : List Tool) (stop : List (List Char)) :
    ∀ (fuel : Nat) (prev : List (List Char)),
      (runLoop gp llm tools stop prev fuel).transcript.length =
        prev.length + (runLoop gp llm tools stop prev fuel).toolCalls := by
  intro fuel
  induction fuel with
  | zero =>
    intro prev
    rfl
  | succ n ih =>
    intro prev
    cases hout : getToolAndInput (llm (gp (List.intercalate nlChar prev)) stop) with
    | error e =>
      rw [runLoop_parseErr gp llm tools stop prev n e hout]
      simp
    | ok pr =>
      obtain ⟨tool, toolInput⟩ := pr
      by_cases ht : tool = finalAnswerName
      · rw [runLoop_final gp llm tools stop prev n tool toolInput hout ht]
        simp
      · cases hm : nameToToolMap tools tool with
        | none =>
          rw [runLoop_unknown gp llm tools stop prev n tool toolInput hout ht hm]
          simp
        | some t =>
          rw [runLoop_toolStep gp llm tools stop prev n tool toolInput t hout ht hm]
          have hgrow := ih (prev ++
            [llm (gp (List.intercalate nlChar prev)) stop ++ nlChar ++
              obsTok ++ spChar ++ t.run toolInput ++ nlChar ++ thoughtTok])
          simp only [List.length_append, List.length_cons, List.length_nil] at hgrow
          simp only [hgrow]
          omega

theorem runLoop_allTool (gp : List Char → List Char)
    (llm : List Char → List (List Char) → List Char)
    (tools : List Tool) (stop : List (List Char))
    (h : ∀ p, ∃ nm inp t, getToolAndInput (llm p stop) = Except.ok (nm, inp) ∧
          nm ≠ finalAnswerName ∧ nameToToolMap tools nm = some t) :
    ∀ (fuel : Nat) (prev : List (List Char)),
      (runLoop gp llm tools stop prev fuel).result = Except.ok none ∧
      (runLoop gp llm tools stop prev fuel).llmCalls = fuel := by
  intro fuel
  induction fuel with
  | zero =>
    intro prev
    exact ⟨rfl, rfl⟩
  | succ n ih =>
    intro prev
    obtain ⟨nm, inp, t, hok, hne, hmap⟩ := h (gp (List.intercalate nlChar prev))
    rw [runLoop_toolStep gp llm tools stop prev n nm inp t hok hne hmap]
    refine ⟨(ih _).1, ?_⟩
    have h2 := (ih (prev ++
      [llm (gp (List.intercalate nlChar prev)) stop ++ nlChar ++
        obsTok ++ spChar ++ t.run inp ++ nlChar ++ thoughtTok])).2
    simp only [h2]

theorem runLoop_prompts_head (gp : List Char → List Char)
    (llm : List Char → List (List Char) → List Char)
    (tools : List Tool) (stop : List (List Char))
    (prev : List (List Char)) (n : Nat) :
    (runLoop gp llm tools stop prev (n + 1)).prompts.head? =
      some (gp (List.intercalate nlChar prev)) := by
  cases hout : getToolAndInput (llm (gp (List.intercalate nlChar prev)) stop) with
  | error e =>
    rw [runLoop_parseErr gp llm tools stop prev n e hout]
    rfl
  | ok pr =>
    obtain ⟨tool, toolInput⟩ := pr
    by_cases ht : tool = finalAnswerName
    · rw [runLoop_final gp llm tools stop prev n tool toolInput hout ht]
      rfl
    · cases hm : nameToToolMap tools tool with
      | none =>
        rw [runLoop_unknown gp llm tools stop prev n tool toolInput hout ht hm]
        rfl
      | some t =>
        rw [runLoop_toolStep gp llm tools stop prev n tool toolInput t hout ht hm]
        rfl

/-! ### Concrete inputs and test doubles used by the claim theorems -/

/-- The spec's last-occurrence example text. -/
def c2Example : List Char := ("...Final Answer: X\nFinal Answer: Y").toList

/-- The spec's bracket-and-quote trimming example text. -/
def c6Example : List Char := ("Action: [Search]\nAction Input: \"hello\"").toList

/-- A bracketed action line assembled from a tool name and a raw input:
`Action: [<name>]\nAction Input: <raw>`. -/
def c6Assemble (name raw : List Char) : List Char :=
  actTok ++ ('[' :: (name ++ (']' :: '\n' :: (aiTok ++ (' ' :: raw)))))

def w1ActionInput : List Char := ("Action: T\nAction Input: x").toList

def w1BadInput : List Char := ("hello there").toList

/-- A trivial global prompt template (the identity on the blob). -/
def idTemplate : List Char → List Char := fun p => p

/-- A registered tool that echoes its input. -/
def echoTool : Tool := ⟨("Echo").toList, [], fun x => x⟩

/-- A completion text naming a tool that is in no registry below. -/
def cexToolCallOut : List Char := ("Action: Missing\nAction Input: x").toList

def cexLlmMissing : List Char → List (List Char) → List Char :=
  fun _ _ => cexToolCallOut

/-- Client that always asks for the unregistered tool, empty registry. -/
def cexAgent3 : Agent := ⟨cexLlmMissing, [], [], 20, []⟩

/-- A completion text whose action-branch tool name is the sentinel. -/
def cexSentinelOut : List Char := ("Action: Final Answer\nAction Input: 42").toList

def cexLlmSentinel : List Char → List (List Char) → List Char :=
  fun _ _ => cexSentinelOut

/-- Empty registry, client that always emits the sentinel action. -/
def cexAgent4 : Agent := ⟨cexLlmSentinel, [], [], 20, []⟩

def wEchoOut : List Char := ("Action: Echo\nAction Input: hi").toList

def wLlmEcho : List Char → List (List Char) → List Char := fun _ _ => wEchoOut

/-- Client that always calls the registered echo tool; budget 2. -/
def wAgent3 : Agent := ⟨wLlmEcho, [], [echoTool], 2, []⟩

/-- Empty registry, client asking for the missing tool, budget 3. -/
def wAgent4 : Agent := ⟨cexLlmMissing, [], [], 3, []⟩

/-- Nonempty registry, client emitting the sentinel action, budget 5. -/
def wAgent9 : Agent := ⟨cexLlmSentinel, [], [echoTool], 5, []⟩

def wBadLlm : List Char → List (List Char) → List Char :=
  fun _ _ => ("not an action").toList

def wPrev : List (List Char) := [("old record").toList]

/-! ### The claims -/

/-- C1: the output parser is total over exactly three disjoint outcomes:
any text containing the final-answer marker yields the final-answer result;
otherwise any text matching the action grammar (an `Action: ` label
followed, possibly across newlines, by an `Action Input:` label and the
remaining text) yields a tool-call pair; any other text yields a parse
error carrying the full offending text. -/
theorem spec_c1 (s : List Char) :
    (containsTok faTok s = true →
      ∃ t, getToolAndInput s = Except.ok (finalAnswerName, t)) ∧
    (containsTok faTok s = false → matchesActionGrammar s →
      ∃ nm inp, getToolAndInput s = Except.ok (nm, inp)) ∧
    (containsTok faTok s = false → ¬ matchesActionGrammar s →
      getToolAndInput s = Except.error s) := by
  refine ⟨?_, ?_, ?_⟩
  · intro h
    exact ⟨_, getToolAndInput_final h⟩
  · intro hFA hg
    have hsome := searchAction_complete hg
    cases hs : searchAction s with
    | none =>
      rw [hs] at hsome
      exact Bool.noConfusion hsome
    | some pr =>
      obtain ⟨g1, rest⟩ := pr
      exact ⟨_, _, getToolAndInput_action hFA hs⟩
  · intro hFA hg
    cases hs : searchAction s with
    | some pr => exact absurd (searchAction_sound hs) hg
    | none => exact getToolAndInput_err hFA hs

/-- Witness for C1 at concrete inputs: a marker text, a grammar text, and a
text in neither grammar. -/
theorem spec_c1_witness :
    (∃ t, getToolAndInput c2Example = Except.ok (finalAnswerName, t)) ∧
    (∃ nm inp, getToolAndInput w1ActionInput = Except.ok (nm, inp)) ∧
    getToolAndInput w1BadInput = Except.error w1BadInput := by
  refine ⟨(spec_c1 c2Example).1 (by decide),
    (spec_c1 w1ActionInput).2.1 (by decide) ?_,
    (spec_c1 w1BadInput).2.2 (by decide) ?_⟩
  · exact ⟨[], ("T\n").toList, (" x").toList, by decide⟩
  · intro hm
    exact absurd (searchAction_complete hm) (by decide)

/-- C2: on any text containing the final-answer marker, the parser returns
the text after the last marker occurrence (the returned tail contains no
further occurrence), trimmed of surrounding whitespace; in particular the
spec's two-marker example parses to `Y`. -/
theorem spec_c2 :
    (∀ s, containsTok faTok s = true →
      ∃ pre u, s = pre ++ faTok ++ u ∧ containsTok faTok u = false ∧
        getToolAndInput s = Except.ok (finalAnswerName, pyStrip u)) ∧
    getToolAndInput c2Example = Except.ok (finalAnswerName, ['Y']) := by
  constructor
  · intro s h
    have hsome := tailAux_isSome s none h
    cases htail : tailAux none s with
    | none =>
      rw [htail] at hsome
      exact Bool.noConfusion hsome
    | some u =>
      rcases tailAux_sound s none u htail with ⟨pre, hpre, hcu⟩ | ⟨hlast, _⟩
      · refine ⟨pre, u, hpre, hcu, ?_⟩
        rw [getToolAndInput_final h]
        simp [tailAfterFA, htail]
      · exact Option.noConfusion hlast
  · decide

/-- Witness for C2 at the spec's example text. -/
theorem spec_c2_witness :
    ∃ pre u, c2Example = pre ++ faTok ++ u ∧ containsTok faTok u = false ∧
      getToolAndInput c2Example = Except.ok (finalAnswerName, pyStrip u) :=
  spec_c2.1 c2Example (by decide)

/-- Parse of the echo client's fixed output. -/
theorem wEchoOut_parse :
    getToolAndInput wEchoOut = Except.ok (("Echo").toList, ("hi").toList) := by
  decide

/-- The always-ToolCall hypothesis holds for the echo client and registry. -/
theorem wAgent3_allTool :
    ∀ p, ∃ nm inp t,
      getToolAndInput (wAgent3.llm p wAgent3.stopPattern) = Except.ok (nm, inp) ∧
      nm ≠ finalAnswerName ∧ nameToToolMap wAgent3.tools nm = some t :=
  fun _ => ⟨("Echo").toList, ("hi").toList, echoTool, wEchoOut_parse,
    by decide, rfl⟩

/-- C3 counterexample to the claim as stated: a completion client that
always returns a ToolCall action (naming an unregistered tool) makes `run`
stop after one completion dispatch with an exception, not after the full
budget of 20 iterations. -/
theorem spec_c3_cex :
    getToolAndInput cexToolCallOut =
      Except.ok (("Missing").toList, ("x").toList) ∧
    cexAgent3.maxLoops = 20 ∧
    (Agent.run idTemplate cexAgent3 []).llmCalls = 1 ∧
    (Agent.run idTemplate cexAgent3 []).llmCalls ≠ cexAgent3.maxLoops ∧
    (Agent.run idTemplate cexAgent3 []).result =
      Except.error (RunError.unknownToolError (("Missing").toList)) := by
  refine ⟨by decide, rfl, by decide, by decide, by decide⟩

/-- C3 (amended): for every completion client whose outputs always parse to
a ToolCall naming a registered tool (and never the `'Final Answer'`
sentinel), `run` makes exactly `max_loops` completion dispatches; and for
every client whatsoever the dispatch count never exceeds `max_loops`. -/
theorem spec_c3 :
    (∀ (gp : List Char → List Char) (ag : Agent) (q : List Char),
      (∀ p, ∃ nm inp t,
        getToolAndInput (ag.llm p ag.stopPattern) = Except.ok (nm, inp) ∧
        nm ≠ finalAnswerName ∧ nameToToolMap ag.tools nm = some t) →
      (Agent.run gp ag q).llmCalls = ag.maxLoops) ∧
    (∀ (gp : List Char → List Char) (ag : Agent) (q : List Char),
      (Agent.run gp ag q).llmCalls ≤ ag.maxLoops) := by
  constructor
  · intro gp ag q h
    exact (runLoop_allTool gp ag.llm ag.tools ag.stopPattern h ag.maxLoops []).2
  · intro gp ag q
    exact runLoop_llmCalls_le gp ag.llm ag.tools ag.stopPattern ag.maxLoops []

/-- Witness for C3 with the echo client: exactly 2 dispatches on budget 2. -/
theorem spec_c3_witness :
    (Agent.run idTemplate wAgent3 []).llmCalls = wAgent3.maxLoops ∧
    (Agent.run idTemplate wAgent3 []).llmCalls ≤ wAgent3.maxLoops := by
  constructor
  · exact spec_c3.1 idTemplate wAgent3 [] wAgent3_allTool
  · exact spec_c3.2 idTemplate wAgent3 []

/-- C4 counterexample to the claim as stated: with an empty registry, the
output `Action: Final Answer\nAction Input: 42` parses through the action
branch (no final-answer marker) to a ToolCall pair, yet `run` returns the
input as the answer instead of failing with the unknown-tool error. -/
theorem spec_c4_cex :
    cexAgent4.tools = [] ∧
    containsTok faTok cexSentinelOut = false ∧
    searchAction cexSentinelOut =
      some (finalAnswerName, (" 42").toList) ∧
    getToolAndInput cexSentinelOut =
      Except.ok (finalAnswerName, ("42").toList) ∧
    (Agent.run idTemplate cexAgent4 []).result =
      Except.ok (some (("42").toList)) := by
  refine ⟨rfl, by decide, by decide, by decide, by decide⟩

/-- C4 (amended): for an empty tool registry and every model output that
parses to a ToolCall whose tool name is not the literal `'Final Answer'`,
`run` fails on the first iteration with the unknown-tool error naming the
missing tool: one completion dispatch, no tool invocation, no transcript
append, no retry. -/
theorem spec_c4 (gp : List Char → List Char) (ag : Agent) (q nm inp : List Char)
    (h1 : getToolAndInput (ag.llm (gp (List.intercalate nlChar [])) ag.stopPattern) =
        Except.ok (nm, inp))
    (h2 : nm ≠ finalAnswerName)
    (h3 : ag.tools = [])
    (h4 : 0 < ag.maxLoops) :
    (Agent.run gp ag q).result = Except.error (RunError.unknownToolError nm) ∧
    (Agent.run gp ag q).llmCalls = 1 ∧
    (Agent.run gp ag q).toolCalls = 0 ∧
    (Agent.run gp ag q).transcript = [] := by
  obtain ⟨n, hn⟩ : ∃ n, ag.maxLoops = n + 1 := ⟨ag.maxLoops - 1, by omega⟩
  have hm : nameToToolMap ag.tools nm = none := by
    rw [h3]
    rfl
  unfold Agent.run
  rw [hn, runLoop_unknown gp ag.llm ag.tools ag.stopPattern [] n nm inp h1 h2 hm]
  exact ⟨rfl, rfl, rfl, rfl⟩

/-- Witness for C4 (amended) with an empty registry and the missing tool. -/
theorem spec_c4_witness :
    (Agent.run idTemplate wAgent4 []).result =
      Except.error (RunError.unknownToolError (("Missing").toList)) ∧
    (Agent.run idTemplate wAgent4 []).llmCalls = 1 ∧
    (Agent.run idTemplate wAgent4 []).toolCalls = 0 ∧
    (Agent.run idTemplate wAgent4 []).transcript = [] :=
  spec_c4 idTemplate wAgent4 [] (("Missing").toList) (("x").toList)
    (by decide) (by decide) rfl (by decide)

/-- C5: when every iteration parses to a ToolCall on a registered tool (so
no final answer is ever parsed), the loop runs out of budget and `run`
returns normally with no value at all — `None`, not an exception; there is
no budget-exceeded error. -/
theorem spec_c5 (gp : List Char → List Char) (ag : Agent) (q : List Char)
    (h : ∀ p, ∃ nm inp t,
      getToolAndInput (ag.llm p ag.stopPattern) = Except.ok (nm, inp) ∧
      nm ≠ finalAnswerName ∧ nameToToolMap ag.tools nm = some t) :
    (Agent.run gp ag q).result = Except.ok none ∧
    ∀ e, (Agent.run gp ag q).result ≠ Except.error e := by
  have h1 := (runLoop_allTool gp ag.llm ag.tools ag.stopPattern h ag.maxLoops []).1
  refine ⟨h1, ?_⟩
  intro e he
  unfold Agent.run at he
  rw [h1] at he
  exact Except.noConfusion he

/-- Witness for C5 with the echo client exhausting its budget. -/
theorem spec_c5_witness :
    (Agent.run idTemplate wAgent3 []).result = Except.ok none :=
  (spec_c5 idTemplate wAgent3 [] wAgent3_allTool).1

/-- C6: strings parsed through the action branch have the tool name trimmed
of surrounding whitespace (a leading `[` and trailing `]` being consumed by
the pattern) and the tool input trimmed of leading whitespace, then spaces,
then surrounding quote characters.  Stated three ways: on every action-
branch string; on every clean bracketed action line
`Action: [<name>]\nAction Input: <raw>`; and on the spec's example, which
parses to name `Search`, input `hello`. -/
theorem spec_c6 :
    (∀ s g1 rest, containsTok faTok s = false →
      searchAction s = some (g1, rest) →
      getToolAndInput s = Except.ok (pyStrip g1,
        pyStripBy isQuoteChar (pyStripBy isSpaceChar (rest.dropWhile isPySpace)))) ∧
    (∀ name raw, (∀ c, c ∈ name → c ≠ ']' ∧ c ≠ '\n') →
      containsTok aiTok name = false →
      containsTok faTok (c6Assemble name raw) = false →
      getToolAndInput (c6Assemble name raw) =
        Except.ok (pyStrip name,
          pyStripBy isQuoteChar (pyStripBy isSpaceChar (raw.dropWhile isPySpace)))) ∧
    getToolAndInput c6Example =
      Except.ok (("Search").toList, ("hello").toList) := by
  refine ⟨?_, ?_, by decide⟩
  · intro s g1 rest hFA hs
    exact getToolAndInput_action hFA hs
  · intro name raw h1 h2 hFA
    have hfind : findG1 [] (name ++ (']' :: '\n' :: (aiTok ++ (' ' :: raw)))) =
        some (name, ' ' :: raw) := by
      have hf := findG1_name name [] (' ' :: raw) h1 h2
      simpa using hf
    have hat : afterActTok ('[' :: (name ++ (']' :: '\n' :: (aiTok ++ (' ' :: raw))))) =
        some (name, ' ' :: raw) := by
      rw [afterActTok_cons, if_pos rfl]
      exact hfind
    have hsearch : searchAction (c6Assemble name raw) = some (name, ' ' :: raw) :=
      searchAction_at0 hat
    rw [getToolAndInput_action hFA hsearch]
    have htrim : toolInputTrim (' ' :: raw) =
        pyStripBy isQuoteChar (pyStripBy isSpaceChar (raw.dropWhile isPySpace)) := by
      unfold toolInputTrim
      rw [List.dropWhile_cons, if_pos (by decide : isPySpace ' ' = true)]
    rw [htrim]

/-- Witness for C6: the general action-branch form and the clean bracketed
family, both instantiated at the spec's `[Search]` / `"hello"` example. -/
theorem spec_c6_witness :
    getToolAndInput c6Example = Except.ok (pyStrip (("Search").toList),
      pyStripBy isQuoteChar (pyStripBy isSpaceChar
        (((" \"hello\"").toList).dropWhile isPySpace))) ∧
    getToolAndInput (c6Assemble (("Search").toList) (("\"hello\"").toList)) =
      Except.ok (pyStrip (("Search").toList),
        pyStripBy isQuoteChar (pyStripBy isSpaceChar
          ((("\"hello\"").toList).dropWhile isPySpace))) := by
  constructor
  · exact spec_c6.1 c6Example (("Search").toList) ((" \"hello\"").toList)
      (by decide) (by decide)
  · exact spec_c6.2.1 (("Search").toList) (("\"hello\"").toList)
      (by decide) (by decide) (by decide)

/-- C7: after a successful tool dispatch the record appended to the
transcript is exactly the raw model output, a newline, the observation
marker, a space, the tool result, a newline, and the thought marker; and
every iteration's dispatched prompt is the global template rendered over
the prior records joined by newlines. -/
theorem spec_c7 :
    (∀ (gp : List Char → List Char)
      (llm : List Char → List (List Char) → List Char)
      (tools : List Tool) (stop : List (List Char))
      (prev : List (List Char)) (tool toolInput : List Char) (t : Tool),
      getToolAndInput (llm (gp (List.intercalate nlChar prev)) stop) =
        Except.ok (tool, toolInput) →
      tool ≠ finalAnswerName →
      nameToToolMap tools tool = some t →
      (runLoop gp llm tools stop prev 1).transcript =
        prev ++ [llm (gp (List.intercalate nlChar prev)) stop ++ nlChar ++
          obsTok ++ spChar ++ t.run toolInput ++ nlChar ++ thoughtTok]) ∧
    (∀ (gp : List Char → List Char)
      (llm : List Char → List (List Char) → List Char)
      (tools : List Tool) (stop : List (List Char))
      (prev : List (List Char)) (n : Nat),
      (runLoop gp llm tools stop prev (n + 1)).prompts.head? =
        some (gp (List.intercalate nlChar prev))) := by
  constructor
  · intro gp llm tools stop prev tool toolInput t h ht hm
    rw [runLoop_toolStep gp llm tools stop prev 0 tool toolInput t h ht hm]
    rfl
  · intro gp llm tools stop prev n
    exact runLoop_prompts_head gp llm tools stop prev n

/-- Witness for C7 with the echo client on an empty transcript. -/
theorem spec_c7_witness :
    (runLoop idTemplate wLlmEcho [echoTool] [] [] 1).transcript =
      [] ++ [wLlmEcho (idTemplate (List.intercalate nlChar [])) [] ++ nlChar ++
        obsTok ++ spChar ++ echoTool.run (("hi").toList) ++ nlChar ++ thoughtTok] ∧
    (runLoop idTemplate wLlmEcho [echoTool] [] [] 1).prompts.head? =
      some (idTemplate (List.intercalate nlChar [])) := by
  constructor
  · exact spec_c7.1 idTemplate wLlmEcho [echoTool] [] [] (("Echo").toList)
      (("hi").toList) echoTool wEchoOut_parse (by decide) rfl
  · exact spec_c7.2 idTemplate wLlmEcho [echoTool] [] [] 0

/-- C8 (documenting the defect): the prompt dispatched each iteration is
rendered from the module-global `prompt` template, not from the agent's own
`prompt` field — `run` is invariant under arbitrary changes of the field
supplied at construction, and the first dispatched prompt is the global
template rendered over the empty transcript regardless of the field. -/
theorem spec_c8 :
    (∀ (gp : List Char → List Char)
      (llm : List Char → List (List Char) → List Char)
      (tools : List Tool) (ml : Nat) (stop : List (List Char))
      (p1 p2 q : List Char),
      Agent.run gp (Agent.mk llm p1 tools ml stop) q =
        Agent.run gp (Agent.mk llm p2 tools ml stop) q) ∧
    (∀ (gp : List Char → List Char)
      (llm : List Char → List (List Char) → List Char)
      (tools : List Tool) (stop : List (List Char)) (p q : List Char) (n : Nat),
      (Agent.run gp (Agent.mk llm p tools (n + 1) stop) q).prompts.head? =
        some (gp (List.intercalate nlChar []))) := by
  constructor
  · intro gp llm tools ml stop p1 p2 q
    rfl
  · intro gp llm tools stop p q n
    exact runLoop_prompts_head gp llm tools stop [] n

/-- C9: a model output with no final-answer marker whose action branch
yields the tool name `'Final Answer'` makes `run` return the parsed action
input immediately: one completion dispatch, no tool invocation, no
transcript growth, whatever the registry. -/
theorem spec_c9 (gp : List Char → List Char) (ag : Agent)
    (q out g1 rest : List Char)
    (h1 : containsTok faTok out = false)
    (h2 : searchAction out = some (g1, rest))
    (h3 : pyStrip g1 = finalAnswerName)
    (h4 : ag.llm (gp (List.intercalate nlChar [])) ag.stopPattern = out)
    (h5 : 0 < ag.maxLoops) :
    (Agent.run gp ag q).result = Except.ok (some (toolInputTrim rest)) ∧
    (Agent.run gp ag q).llmCalls = 1 ∧
    (Agent.run gp ag q).toolCalls = 0 ∧
    (Agent.run gp ag q).transcript = [] := by
  obtain ⟨n, hn⟩ : ∃ n, ag.maxLoops = n + 1 := ⟨ag.maxLoops - 1, by omega⟩
  have hparse : getToolAndInput
      (ag.llm (gp (List.intercalate nlChar [])) ag.stopPattern) =
      Except.ok (finalAnswerName, toolInputTrim rest) := by
    rw [h4, getToolAndInput_action h1 h2, h3]
  unfold Agent.run
  rw [hn, runLoop_final gp ag.llm ag.tools ag.stopPattern [] n finalAnswerName
    (toolInputTrim rest) hparse rfl]
  exact ⟨rfl, rfl, rfl, rfl⟩

/-- Witness for C9: the sentinel client with a nonempty registry returns
`42` in one iteration without touching the echo tool. -/
theorem spec_c9_witness :
    (Agent.run idTemplate wAgent9 []).result =
      Except.ok (some (toolInputTrim ((" 42").toList))) ∧
    (Agent.run idTemplate wAgent9 []).llmCalls = 1 ∧
    (Agent.run idTemplate wAgent9 []).toolCalls = 0 ∧
    (Agent.run idTemplate wAgent9 []).transcript = [] :=
  spec_c9 idTemplate wAgent9 [] cexSentinelOut (("Final Answer").toList)
    ((" 42").toList) (by decide) (by decide) (by decide) rfl (by decide)

/-- C10: an iteration that fails, by parse error or by unknown tool, raises
before anything is appended: the transcript is exactly the one at the start
of that iteration and the tool was not invoked; in general the transcript
grows by exactly one record per successful tool invocation. -/
theorem spec_c10 :
    (∀ (gp : List Char → List Char)
      (llm : List Char → List (List Char) → List Char)
      (tools : List Tool) (stop : List (List Char))
      (prev : List (List Char)) (n : Nat) (e : List Char),
      getToolAndInput (llm (gp (List.intercalate nlChar prev)) stop) =
        Except.error e →
      (runLoop gp llm tools stop prev (n + 1)).transcript = prev ∧
      (runLoop gp llm tools stop prev (n + 1)).toolCalls = 0 ∧
      (runLoop gp llm tools stop prev (n + 1)).result =
        Except.error (RunError.parseError e)) ∧
    (∀ (gp : List Char → List Char)
      (llm : List Char → List (List Char) → List Char)
      (tools : List Tool) (stop : List (List Char))
      (prev : List (List Char)) (n : Nat) (nm inp : List Char),
      getToolAndInput (llm (gp (List.intercalate nlChar prev)) stop) =
        Except.ok (nm, inp) →
      nm ≠ finalAnswerName →
      nameToToolMap tools nm = none →
      (runLoop gp llm tools stop prev (n + 1)).transcript = prev ∧
      (runLoop gp llm tools stop prev (n + 1)).toolCalls = 0 ∧
      (runLoop gp llm tools stop prev (n + 1)).result =
        Except.error (RunError.unknownToolError nm)) ∧
    (∀ (gp : List Char → List Char)
      (llm : List Char → List (List Char) → List Char)
      (tools : List Tool) (stop : List (List Char))
      (fuel : Nat) (prev : List (List Char)),
      (runLoop gp llm tools stop prev fuel).transcript.length =
        prev.length + (runLoop gp llm tools stop prev fuel).toolCalls) := by
  refine ⟨?_, ?_, ?_⟩
  · intro gp llm tools stop prev n e h
    rw [runLoop_parseErr gp llm tools stop prev n e h]
    exact ⟨rfl, rfl, rfl⟩
  · intro gp llm tools stop prev n nm inp h ht hm
    rw [runLoop_unknown gp llm tools stop prev n nm inp h ht hm]
    exact ⟨rfl, rfl, rfl⟩
  · intro gp llm tools stop fuel prev
    exact runLoop_transcript_growth gp llm tools stop fuel prev

/-- Witness for C10: a parse failure and an unknown-tool failure both leave
a one-record transcript untouched. -/
theorem spec_c10_witness :
    ((runLoop idTemplate wBadLlm [] [] wPrev 1).transcript = wPrev ∧
      (runLoop idTemplate wBadLlm [] [] wPrev 1).toolCalls = 0 ∧
      (runLoop idTemplate wBadLlm [] [] wPrev 1).result =
        Except.error (RunError.parseError (("not an action").toList))) ∧
    ((runLoop idTemplate cexLlmMissing [] [] wPrev 1).transcript = wPrev ∧
      (runLoop idTemplate cexLlmMissing [] [] wPrev 1).toolCalls = 0 ∧
      (runLoop idTemplate cexLlmMissing [] [] wPrev 1).result =
        Except.error (RunError.unknownToolError (("Missing").toList))) := by
  constructor
  · exact spec_c10.1 idTemplate wBadLlm [] [] wPrev 0
      (("not an action").toList) (by decide)
  · exact spec_c10.2.1 idTemplate cexLlmMissing [] [] wPrev 0
      (("Missing").toList) (("x").toList) (by decide) (by decide) rfl
